import Mathlib

/-!
Verification of the wf-data-cli item filtering and rendering pipeline
(src/main.rs): a shallow embedding of the data model, the two filter
stages, the two renderers and the main dispatch, together with theorems
settling the specified properties.

Modelling conventions:
* Rust `Vec<T>` is `List T`, `Option<T>` is `Option T`.
* Rust `usize` arithmetic is `Nat`; the one subtraction in the program
  (`term_width - 2`) is modelled by `rust_sub`, which is `none` exactly
  when the unchecked unsigned subtraction would underflow (a panic).
* The external collaborators (JSON deserialization via serde_json,
  terminal-size detection, the process argument vector) are injected as
  values: the parse result is an `Except`, the detected dimensions an
  `Option (Nat × Nat)`, the argument vector a `List String`.
* Display width per the external unicode_width crate is `uwidth`; every
  string this development evaluates is ASCII, where each character has
  display width one, so `uwidth` is the character count.
* Rust standard string helpers (`to_lowercase`, `starts_with`,
  `split_whitespace`, `str::repeat`, `join`) are modelled by the
  like-named functions below, over `List Char` data so that concrete
  instances reduce in the kernel.  Lowercasing is ASCII lowercasing,
  which agrees with Rust on every string considered here.
* `HashSet<String>` used for search-mode deduplication is modelled as a
  `List String` with `set_contains` membership; `insert` returning
  whether the element was new is modelled by the membership test
  followed by consing.
-/

/-- Models Rust `str::to_lowercase` (ASCII range). -/
def to_lowercase (s : String) : String :=
  String.mk (s.data.map Char.toLower)

/-- Character-list version of Rust `str::starts_with`. -/
def list_starts_with : List Char → List Char → Bool
  | [], _ => true
  | _ :: _, [] => false
  | p :: ps, c :: cs => p == c && list_starts_with ps cs

/-- Models Rust `str::starts_with`: `starts_with s p` is true when `p` is an
initial segment of `s`. -/
def starts_with (s : String) (p : String) : Bool :=
  list_starts_with p.data s.data

/-- Accumulator loop for `split_whitespace`. -/
def split_ws_aux : List Char → List Char → List String
  | [], acc => if acc.isEmpty then [] else [String.mk acc.reverse]
  | c :: cs, acc =>
    if c.isWhitespace then
      if acc.isEmpty then split_ws_aux cs []
      else String.mk acc.reverse :: split_ws_aux cs []
    else split_ws_aux cs (c :: acc)

/-- Models Rust `str::split_whitespace`: maximal runs of non-whitespace
characters, in order, with no empty tokens. -/
def split_whitespace (s : String) : List String :=
  split_ws_aux s.data []

/-- Models Rust `str::repeat`. -/
def repeat_str (s : String) : Nat → String
  | 0 => ""
  | n + 1 => s ++ repeat_str s n

/-- Models `slice::join` on strings (Rust `segments.join(sep)`). -/
def join_with (sep : String) : List String → String
  | [] => ""
  | [x] => x
  | x :: y :: xs => x ++ sep ++ join_with sep (y :: xs)

/-- Models `unicode_width::UnicodeWidthStr::width`.  All strings this
development evaluates are ASCII, where every character occupies one display
column, so the width is the character count. -/
def uwidth (s : String) : Nat :=
  s.length

/-- Rust `usize` subtraction `a - b`: defined when `b ≤ a`, and an
arithmetic-underflow panic (modelled as `none`) otherwise. -/
def rust_sub (a b : Nat) : Option Nat :=
  if b ≤ a then some (a - b) else none

/-- Membership test of the seen-set (`HashSet<String>::contains`-style),
with the set modelled as a list of its elements. -/
def set_contains : List String → String → Bool
  | [], _ => false
  | x :: xs, s => s == x || set_contains xs s

/-! ## Data model (the serde record shapes from src/main.rs) -/

structure WarframeMarket where
  id : String
  urlName : String

structure RewardItem where
  name : String
  uniqueName : String
  warframeMarket : Option WarframeMarket

structure Reward where
  rarity : String
  chance : Rat
  item : RewardItem

structure Patchlog where
  name : String
  date : String
  url : String
  additions : String
  changes : String
  fixes : String

structure Component where
  name : String
  uniqueName : String
  description : Option String
  type_ : Option String
  tradable : Bool
  category : Option String
  productCategory : Option String

structure Introduced where
  name : String
  url : String
  aliases : List String
  parent : String
  date : String

structure Item where
  name : String
  uniqueName : String
  description : Option String
  type_ : String
  tradable : Bool
  category : Option String
  productCategory : Option String
  patchlogs : Option (List Patchlog)
  components : Option (List Component)
  introduced : Option Introduced
  estimatedVaultDate : Option String
  rewards : Option (List Reward)

inductive RelicType where
  | Lith
  | Meso
  | Neo
  | Axi
deriving DecidableEq

/-- `RelicType::from_str`: the match on the lowercased value, `none` for
anything other than the four literals. -/
def RelicType.from_str (s : String) : Option RelicType :=
  let lowered := to_lowercase s
  if lowered = "lith" then some RelicType.Lith
  else if lowered = "meso" then some RelicType.Meso
  else if lowered = "neo" then some RelicType.Neo
  else if lowered = "axi" then some RelicType.Axi
  else none

/-- The lowercased literal of each relic type, as matched by
`str_is_valid_relic_of_type`. -/
def relic_literal : RelicType → String
  | RelicType.Lith => "lith"
  | RelicType.Meso => "meso"
  | RelicType.Neo => "neo"
  | RelicType.Axi => "axi"

/-- `str_is_valid_relic_of_type`: lowercase the string once, then test the
prefix matching the given relic type. -/
def str_is_valid_relic_of_type (s : String) (relic_type : RelicType) : Bool :=
  let s_lowercase := to_lowercase s
  match relic_type with
  | RelicType.Lith => starts_with s_lowercase "lith"
  | RelicType.Meso => starts_with s_lowercase "meso"
  | RelicType.Neo => starts_with s_lowercase "neo"
  | RelicType.Axi => starts_with s_lowercase "axi"

inductive OutputFormat where
  | Default
  | Search
deriving DecidableEq

/-- `Item::get_relic_short_name`: the first two whitespace-delimited tokens
of the name joined by a single space. -/
def Item.get_relic_short_name (self : Item) : String :=
  let segments := (split_whitespace self.name).take 2
  join_with " " segments

/-- The loop body of `wrap_text`: `current_line` starts as the label and is
grown word by word; the overflow test measures
`format!("{} {} {}", prefix, current_line, word)` exactly as the source
does (note that `current_line` initially already contains the label). -/
def wrap_go (p : String) (max_width indent_after_first : Nat) :
    List String → String → List String → List String
  | [], current_line, lines => lines ++ [current_line]
  | word :: words, current_line, lines =>
    if current_line.isEmpty then
      wrap_go p max_width indent_after_first words (current_line ++ word) lines
    else if uwidth (p ++ " " ++ current_line ++ " " ++ word) ≤ max_width then
      wrap_go p max_width indent_after_first words (current_line ++ " " ++ word) lines
    else
      wrap_go p max_width indent_after_first words
        (repeat_str " " indent_after_first ++ word) (lines ++ [current_line])

/-- `wrap_text` from src/main.rs. -/
def wrap_text (text : String) (p : String) (max_width indent_after_first : Nat) :
    List String :=
  wrap_go p max_width indent_after_first (split_whitespace text) p []

/-- The `OutputFormat::Default` arm of the `log_items` loop for one item:
computes `border_width = term_width - 2` (panicking on underflow) and
emits the bordered block. -/
def render_item_default (item : Item) (term_width : Nat) : Option (List String) :=
  (rust_sub term_width 2).map (fun border_width =>
    ["┌" ++ repeat_str "─" border_width ++ "┐",
     "│ Name: " ++ item.name,
     "│ UniqueName: " ++ item.uniqueName]
    ++ (match item.description with
        | some description =>
          (wrap_text description "Description:" border_width 2).map
            (fun line => "│ " ++ line)
        | none => [])
    ++ ["│ Type: " ++ item.type_,
        "│ Tradable: " ++ (if item.tradable then "true" else "false")]
    ++ (match item.category with
        | some category => ["│ Category: " ++ category]
        | none => [])
    ++ (match item.productCategory with
        | some product_category => ["│ Product Category: " ++ product_category]
        | none => [])
    ++ (match item.introduced with
        | some introduced => ["│ Introduced Date: " ++ introduced.date]
        | none => [])
    ++ (match item.estimatedVaultDate with
        | some vault_date => ["│ Estimated Vault Date: " ++ vault_date]
        | none => [])
    ++ (match item.rewards with
        | some rewards => rewards.map (fun reward => "│   - " ++ reward.item.name)
        | none => [])
    ++ ["└" ++ repeat_str "─" border_width ++ "┘"])

/-- The `for item in items` loop of `log_items`, threading the seen-set of
relic short names.  The result is the list of printed lines, `none` when a
`Default`-mode border computation panicked. -/
def log_items_go (output_format : OutputFormat) (has_relic : Bool) (term_width : Nat) :
    List Item → List String → Option (List String)
  | [], _ => some []
  | item :: rest, seen =>
    match output_format with
    | OutputFormat.Default =>
      (render_item_default item term_width).bind (fun block =>
        (log_items_go output_format has_relic term_width rest seen).map
          (fun tail => block ++ tail))
    | OutputFormat.Search =>
      if has_relic then
        let short_name := item.get_relic_short_name
        if set_contains seen short_name then
          log_items_go output_format has_relic term_width rest seen
        else
          (log_items_go output_format has_relic term_width rest (short_name :: seen)).map
            (fun tail => short_name :: tail)
      else
        (log_items_go output_format has_relic term_width rest seen).map
          (fun tail => item.name :: tail)

/-- The detected terminal width: first component of the injected
`dimensions_stdout()` result, with the source's `(80, 24)` fallback. -/
def term_width_of (dims : Option (Nat × Nat)) : Nat :=
  (dims.getD (80, 24)).1

/-- The border width the `Default` renderer computes: `term_width - 2` in
unchecked `usize` arithmetic. -/
def border_width_of (dims : Option (Nat × Nat)) : Option Nat :=
  rust_sub (term_width_of dims) 2

/-- `log_items` from src/main.rs, with the terminal dimensions injected. -/
def log_items (items : List Item) (output_format : OutputFormat)
    (has_relic : Bool) (dims : Option (Nat × Nat)) : Option (List String) :=
  log_items_go output_format has_relic (term_width_of dims) items []

/-- `filter_items_by_relic_type` from src/main.rs: keep items whose `type`
field is `"Relic"` and, when a relic type is provided, whose `uniqueName`
lowercased starts with its literal. -/
def filter_items_by_relic_type (items : List Item) (relic_type : Option RelicType) :
    List Item :=
  items.filter (fun item =>
    let is_relic := item.type_ == "Relic"
    let matches_relic_type :=
      match relic_type with
      | some relic_type => str_is_valid_relic_of_type item.uniqueName relic_type
      | none => true
    is_relic && matches_relic_type)

/-- `filter_items_by_search_term` from src/main.rs: with a term, keep items
whose name or uniqueName lowercased starts with the lowercased term; with
no term, pass everything through. -/
def filter_items_by_search_term (items : List Item) (search_term : Option String) :
    List Item :=
  match search_term with
  | some term =>
    let term_lowercase := to_lowercase term
    items.filter (fun item =>
      starts_with (to_lowercase item.name) term_lowercase ||
      starts_with (to_lowercase item.uniqueName) term_lowercase)
  | none => items

/-! ## Argument scanning and the main dispatch -/

/-- `args.iter().position(|arg| arg == "--relic")`. -/
def relic_index (args : List String) : Option Nat :=
  args.findIdx? (fun a => a == "--relic")

/-- The parsed relic type: the argument following `--relic`, run through
`RelicType::from_str`. -/
def relic_type_arg (args : List String) : Option RelicType :=
  ((relic_index args).bind (fun i => args[i + 1]?)).bind RelicType.from_str

/-- `relic_index.is_some()`. -/
def has_relic_arg (args : List String) : Bool :=
  (relic_index args).isSome

/-- `args.iter().position(|arg| arg == "--search")`. -/
def search_index (args : List String) : Option Nat :=
  args.findIdx? (fun a => a == "--search")

/-- The search term: the argument following `--search`, cloned verbatim. -/
def search_term_arg (args : List String) : Option String :=
  (search_index args).bind (fun i => args[i + 1]?)

/-- The two filter stages of `main`, exactly as dispatched there: the relic
filter runs when `--relic` is present (with whatever tag parsed, possibly
`none`), then the search filter runs when a term is present. -/
def run_filters (args : List String) (items : List Item) : List Item :=
  let filtered_items :=
    if has_relic_arg args then filter_items_by_relic_type items (relic_type_arg args)
    else items
  match search_term_arg args with
  | some term => filter_items_by_search_term filtered_items (some term)
  | none => filtered_items

/-- `main` from src/main.rs with its collaborators injected: the argument
vector, the loader result (serde_json parse of stdin), and the detected
terminal dimensions.  The outer `Option` is `none` when `log_items`
panicked; otherwise `Except.error` is the propagated `MalformedInput`
failure and `Except.ok` carries the printed lines. -/
def main_run (args : List String) (parsed : Except String (List Item))
    (dims : Option (Nat × Nat)) : Option (Except String (List String)) :=
  match parsed with
  | Except.error e => some (Except.error e)
  | Except.ok items =>
    let filtered_items := run_filters args items
    let output_format :=
      if args.contains "--fmt:search" then OutputFormat.Search
      else OutputFormat.Default
    if args.contains "--log-items" then
      (log_items filtered_items output_format (has_relic_arg args) dims).map Except.ok
    else
      some (Except.ok [])

/-- The process exit status of a run: 0 on success, 1 when `main` returns
the error (Rust's `Result` main), 101 on a panic. -/
def exit_code : Option (Except String (List String)) → Nat
  | none => 101
  | some (Except.error _) => 1
  | some (Except.ok _) => 0

/-- The lines a run printed.  (Partial output flushed before a panic is not
modelled; no claim depends on it.) -/
def output_lines : Option (Except String (List String)) → List String
  | none => []
  | some (Except.error _) => []
  | some (Except.ok lines) => lines

/-- First-occurrence deduplication, stated independently of the seen-set
loop: keep each string's first occurrence, dropping every later duplicate. -/
def dedup_first : List String → List String
  | [] => []
  | x :: xs => x :: dedup_first (xs.filter (fun y => !(y == x)))
termination_by l => l.length
decreasing_by
  simp only [List.length_cons]
  exact Nat.lt_succ_of_le (List.length_filter_le _ _)

/-- The extra prefix condition the relic filter imposes when a tag is
present: the item's `uniqueName`, lowercased, starts with the tag's
lowercased literal (vacuously true with no tag). -/
def tag_condition (tag : Option RelicType) (item : Item) : Bool :=
  match tag with
  | some rt => starts_with (to_lowercase item.uniqueName) (relic_literal rt)
  | none => true

/-- Classification of the lines a detail-mode block can contain: every
line carries one of the fixed leading markers, and a line carrying an
optional field's label exists only when that field is present. -/
def line_shape (item : Item) (line : String) : Prop :=
  (∃ t, line = "┌" ++ t) ∨
  (∃ t, line = "└" ++ t) ∨
  (∃ t, line = "│ Name: " ++ t) ∨
  (∃ t, line = "│ UniqueName: " ++ t) ∨
  (item.description ≠ none ∧
    ((∃ t, line = "│ Description:" ++ t) ∨ (∃ t, line = "│   " ++ t))) ∨
  (∃ t, line = "│ Type: " ++ t) ∨
  (∃ t, line = "│ Tradable: " ++ t) ∨
  (item.category ≠ none ∧ ∃ t, line = "│ Category: " ++ t) ∨
  (item.productCategory ≠ none ∧ ∃ t, line = "│ Product Category: " ++ t) ∨
  (item.introduced ≠ none ∧ ∃ t, line = "│ Introduced Date: " ++ t) ∨
  (item.estimatedVaultDate ≠ none ∧ ∃ t, line = "│ Estimated Vault Date: " ++ t) ∨
  (∃ t, line = "│   - " ++ t)

/-! ## Concrete items used to instantiate the theorems -/

/-- An item with every optional field absent. -/
def item_bare : Item :=
  { name := "X", uniqueName := "U", description := none, type_ := "T",
    tradable := true, category := none, productCategory := none,
    patchlogs := none, components := none, introduced := none,
    estimatedVaultDate := none, rewards := none }

/-- An item with a mixed optional-field population: description, product
category and vault date present; category and introduced date absent. -/
def item_mixed : Item :=
  { name := "Forma", uniqueName := "/Lotus/Forma",
    description := some "Reusable part", type_ := "Item", tradable := false,
    category := none, productCategory := some "Gear", patchlogs := none,
    components := none, introduced := none,
    estimatedVaultDate := some "2020-01-01", rewards := none }

/-- A relic-typed item (type field `"Relic"`) whose `category` field is
absent. -/
def item_relic_nocat : Item :=
  { name := "Meso A1 Relic", uniqueName := "/Lotus/Types/Game/Projections/T2VoidProjectionD",
    description := none, type_ := "Relic", tradable := true, category := none,
    productCategory := none, patchlogs := none, components := none,
    introduced := none, estimatedVaultDate := none, rewards := none }

/-- A relic-typed item whose identifier starts with the Lith literal. -/
def item_lith : Item :=
  { name := "Lith C1 Relic", uniqueName := "LithC1Relic",
    description := none, type_ := "Relic", tradable := true,
    category := some "Relic", productCategory := none, patchlogs := none,
    components := none, introduced := none, estimatedVaultDate := none,
    rewards := none }

/-- The Intact refinement of the Meso A1 relic. -/
def item_meso_intact : Item :=
  { name := "Meso A1 Relic (Intact)", uniqueName := "/Lotus/MesoA1Intact",
    description := none, type_ := "Relic", tradable := true,
    category := some "Relic", productCategory := none, patchlogs := none,
    components := none, introduced := none, estimatedVaultDate := none,
    rewards := none }

/-- The Radiant refinement of the Meso A1 relic. -/
def item_meso_radiant : Item :=
  { name := "Meso A1 Relic (Radiant)", uniqueName := "/Lotus/MesoA1Radiant",
    description := none, type_ := "Relic", tradable := true,
    category := some "Relic", productCategory := none, patchlogs := none,
    components := none, introduced := none, estimatedVaultDate := none,
    rewards := none }

/-! ## Helper lemmas -/

/-- The per-case prefix test of `str_is_valid_relic_of_type` is the prefix
test against the tag's literal. -/
theorem str_is_valid_relic_of_type_eq (s : String) (rt : RelicType) :
    str_is_valid_relic_of_type s rt = starts_with (to_lowercase s) (relic_literal rt) := by
  cases rt <;> rfl

/-- Unfolding of the seen-set membership test on a cons. -/
theorem set_contains_cons (x : String) (xs : List String) (s : String) :
    set_contains (x :: xs) s = (s == x || set_contains xs s) := rfl

/-- The search-format, relic-mode rendering loop prints exactly the
first-occurrence deduplication of the short names not already seen. -/
theorem log_items_go_search_relic (tw : Nat) (items : List Item) :
    ∀ seen : List String,
      log_items_go OutputFormat.Search true tw items seen =
        some (dedup_first ((items.map Item.get_relic_short_name).filter
          (fun s => !(set_contains seen s)))) := by
  induction items with
  | nil => intro seen; simp [log_items_go, dedup_first]
  | cons item rest ih =>
    intro seen
    cases hmem : set_contains seen item.get_relic_short_name with
    | true =>
      simp only [log_items_go, hmem, if_true, List.map_cons, List.filter_cons,
        Bool.not_true, Bool.false_eq_true, if_false, ite_true]
      exact ih seen
    | false =>
      have hgo : log_items_go OutputFormat.Search true tw (item :: rest) seen =
          (log_items_go OutputFormat.Search true tw rest
            (item.get_relic_short_name :: seen)).map
            (fun tail => item.get_relic_short_name :: tail) := by
        simp [log_items_go, hmem]
      rw [hgo, ih]
      simp only [Option.map_some', List.map_cons, List.filter_cons, hmem,
        Bool.not_false, ite_true, if_true, dedup_first]
      congr 2
      rw [List.filter_filter]
      congr 1
      refine List.filter_congr ?_
      intro a _
      cases hx : a == item.get_relic_short_name <;>
        cases hy : set_contains seen a <;>
          simp [set_contains_cons, hx, hy]

/-- A prefix test against `al ++ bl` determines the prefix test of the
pattern's first `al.length` characters against `al` alone. -/
theorem lsw_take (al : List Char) : ∀ (pl bl : List Char),
    list_starts_with pl (al ++ bl) = true →
    list_starts_with (pl.take al.length) al = true := by
  induction al with
  | nil => intro pl bl _; rfl
  | cons a as ih =>
    intro pl bl h
    cases pl with
    | nil => rfl
    | cons p ps =>
      have h' : (p == a && list_starts_with ps (as ++ bl)) = true := h
      rw [Bool.and_eq_true] at h'
      show (p == a && list_starts_with (ps.take as.length) as) = true
      rw [Bool.and_eq_true]
      exact ⟨h'.1, ih ps bl h'.2⟩

/-- A string beginning with the fixed text `a` cannot start with a pattern
`p` once `p` disagrees with `a` inside `a` itself, whatever follows. -/
theorem starts_with_append_none (a b p : String)
    (h : list_starts_with (p.data.take a.data.length) a.data = false) :
    starts_with (a ++ b) p = false := by
  unfold starts_with
  rw [String.data_append]
  cases hq : list_starts_with p.data (a.data ++ b.data)
  · rfl
  · have hc := lsw_take a.data p.data b.data hq
    rw [h] at hc
    exact absurd hc Bool.false_ne_true

/-- Every line the wrapping loop emits for the label "Description:" with
indent 2 begins with that label or with the two-space indent. -/
theorem wrap_go_line_shape (bw : Nat) (words : List String) :
    ∀ (current : String) (acc : List String),
      ((∃ t, current = "Description:" ++ t) ∨ (∃ t, current = "  " ++ t)) →
      (∀ l ∈ acc, (∃ t, l = "Description:" ++ t) ∨ (∃ t, l = "  " ++ t)) →
      ∀ l ∈ wrap_go "Description:" bw 2 words current acc,
        (∃ t, l = "Description:" ++ t) ∨ (∃ t, l = "  " ++ t) := by
  induction words with
  | nil =>
    intro current acc hcur hacc l hl
    simp only [wrap_go] at hl
    rcases List.mem_append.mp hl with h | h
    · exact hacc l h
    · rw [List.mem_singleton] at h
      subst h
      exact hcur
  | cons word ws ih =>
    intro current acc hcur hacc l hl
    simp only [wrap_go] at hl
    by_cases hemp : current.isEmpty = true
    · rw [if_pos hemp] at hl
      refine ih (current ++ word) acc ?_ hacc l hl
      rcases hcur with ⟨t, rfl⟩ | ⟨t, rfl⟩
      · exact Or.inl ⟨t ++ word, by simp [String.append_assoc]⟩
      · exact Or.inr ⟨t ++ word, by simp [String.append_assoc]⟩
    · rw [if_neg hemp] at hl
      by_cases hw : uwidth ("Description:" ++ " " ++ current ++ " " ++ word) ≤ bw
      · rw [if_pos hw] at hl
        refine ih (current ++ " " ++ word) acc ?_ hacc l hl
        rcases hcur with ⟨t, rfl⟩ | ⟨t, rfl⟩
        · exact Or.inl ⟨t ++ " " ++ word, by simp [String.append_assoc]⟩
        · exact Or.inr ⟨t ++ " " ++ word, by simp [String.append_assoc]⟩
      · rw [if_neg hw] at hl
        refine ih (repeat_str " " 2 ++ word) (acc ++ [current]) ?_ ?_ l hl
        · exact Or.inr ⟨word, rfl⟩
        · intro l' hl'
          rcases List.mem_append.mp hl' with h | h
          · exact hacc l' h
          · rw [List.mem_singleton] at h
            subst h
            exact hcur

/-- Every line of a wrapped description begins with "Description:" or with
the two-space continuation indent. -/
theorem wrap_text_line_shape (d : String) (bw : Nat) :
    ∀ l ∈ wrap_text d "Description:" bw 2,
      (∃ t, l = "Description:" ++ t) ∨ (∃ t, l = "  " ++ t) := by
  intro l hl
  exact wrap_go_line_shape bw (split_whitespace d) "Description:" []
    (Or.inl ⟨"", rfl⟩) (fun l' hl' => absurd hl' (List.not_mem_nil l')) l hl

/-- Every line of a successfully rendered detail block has one of the
shapes listed in `line_shape`. -/
theorem render_line_shapes (item : Item) (tw : Nat) (ls : List String) (line : String)
    (hr : render_item_default item tw = some ls) (hl : line ∈ ls) :
    line_shape item line := by
  cases hsub : rust_sub tw 2 with
  | none =>
    simp [render_item_default, hsub] at hr
  | some bw =>
    simp only [render_item_default, hsub, Option.map_some', Option.some.injEq] at hr
    subst hr
    unfold line_shape
    rcases List.mem_append.mp hl with hl | hbot
    rcases List.mem_append.mp hl with hl | hrew
    rcases List.mem_append.mp hl with hl | hvault
    rcases List.mem_append.mp hl with hl | hintro
    rcases List.mem_append.mp hl with hl | hpcat
    rcases List.mem_append.mp hl with hl | hcat
    rcases List.mem_append.mp hl with hl | hmid
    rcases List.mem_append.mp hl with hfixed | hdesc
    · -- the three leading fixed lines
      simp only [List.mem_cons, List.not_mem_nil, or_false] at hfixed
      rcases hfixed with rfl | rfl | rfl
      · exact Or.inl ⟨repeat_str "─" bw ++ "┐", by simp [String.append_assoc]⟩
      · exact Or.inr (Or.inr (Or.inl ⟨item.name, rfl⟩))
      · exact Or.inr (Or.inr (Or.inr (Or.inl ⟨item.uniqueName, rfl⟩)))
    · -- the wrapped description block
      cases hd : item.description with
      | none => simp [hd] at hdesc
      | some d =>
        simp only [hd] at hdesc
        obtain ⟨wl, hwl, rfl⟩ := List.mem_map.mp hdesc
        refine Or.inr (Or.inr (Or.inr (Or.inr (Or.inl ⟨by simp [hd], ?_⟩))))
        rcases wrap_text_line_shape d bw wl hwl with ⟨t, rfl⟩ | ⟨t, rfl⟩
        · exact Or.inl ⟨t, by rw [← String.append_assoc]; rfl⟩
        · exact Or.inr ⟨t, by rw [← String.append_assoc]; rfl⟩
    · -- the type and tradable lines
      simp only [List.mem_cons, List.not_mem_nil, or_false] at hmid
      rcases hmid with rfl | rfl
      · exact Or.inr (Or.inr (Or.inr (Or.inr (Or.inr (Or.inl ⟨item.type_, rfl⟩)))))
      · exact Or.inr (Or.inr (Or.inr (Or.inr (Or.inr (Or.inr (Or.inl
          ⟨if item.tradable then "true" else "false", rfl⟩))))))
    · -- the category line
      cases hc : item.category with
      | none => simp [hc] at hcat
      | some c =>
        simp only [hc, List.mem_singleton] at hcat
        subst hcat
        exact Or.inr (Or.inr (Or.inr (Or.inr (Or.inr (Or.inr (Or.inr (Or.inl
          ⟨by simp [hc], c, rfl⟩)))))))
    · -- the product category line
      cases hp : item.productCategory with
      | none => simp [hp] at hpcat
      | some pc =>
        simp only [hp, List.mem_singleton] at hpcat
        subst hpcat
        exact Or.inr (Or.inr (Or.inr (Or.inr (Or.inr (Or.inr (Or.inr (Or.inr (Or.inl
          ⟨by simp [hp], pc, rfl⟩))))))))
    · -- the introduced date line
      cases hi : item.introduced with
      | none => simp [hi] at hintro
      | some intr =>
        simp only [hi, List.mem_singleton] at hintro
        subst hintro
        exact Or.inr (Or.inr (Or.inr (Or.inr (Or.inr (Or.inr (Or.inr (Or.inr (Or.inr (Or.inl
          ⟨by simp [hi], intr.date, rfl⟩)))))))))
    · -- the vault date line
      cases hv : item.estimatedVaultDate with
      | none => simp [hv] at hvault
      | some v =>
        simp only [hv, List.mem_singleton] at hvault
        subst hvault
        exact Or.inr (Or.inr (Or.inr (Or.inr (Or.inr (Or.inr (Or.inr (Or.inr (Or.inr (Or.inr
          (Or.inl ⟨by simp [hv], v, rfl⟩))))))))))
    · -- the reward lines
      cases hrw : item.rewards with
      | none => simp [hrw] at hrew
      | some rs =>
        simp only [hrw] at hrew
        obtain ⟨r, _, rfl⟩ := List.mem_map.mp hrew
        exact Or.inr (Or.inr (Or.inr (Or.inr (Or.inr (Or.inr (Or.inr (Or.inr (Or.inr (Or.inr
          (Or.inr ⟨r.item.name, rfl⟩))))))))))
    · -- the bottom border
      rw [List.mem_singleton] at hbot
      subst hbot
      exact Or.inr (Or.inl ⟨repeat_str "─" bw ++ "┘", by simp [String.append_assoc]⟩)

/-! ## Claim theorems -/

/-- C1 (amended): every item the relic-type filter outputs occurs in the
input and has its `type` field equal to "Relic" (the filter tests the
`type` field, not the `category` field); when a tag is given, the output
item's `uniqueName`, lower-cased, starts with that tag's lower-cased
literal. -/
theorem relic_filter_sound (items : List Item) (tag : Option RelicType) (item : Item)
    (h : item ∈ filter_items_by_relic_type items tag) :
    item ∈ items ∧ item.type_ = "Relic" ∧ tag_condition tag item = true := by
  simp only [filter_items_by_relic_type] at h
  have hm := List.mem_filter.mp h
  have hpred := hm.2
  rw [Bool.and_eq_true] at hpred
  refine ⟨hm.1, eq_of_beq hpred.1, ?_⟩
  cases tag with
  | none => rfl
  | some rt =>
    have hv : str_is_valid_relic_of_type item.uniqueName rt = true := hpred.2
    rw [str_is_valid_relic_of_type_eq] at hv
    exact hv

/-- Instance of the relic-filter soundness theorem at a concrete Lith item. -/
theorem relic_filter_sound_witness :
    item_lith ∈ [item_lith] ∧ item_lith.type_ = "Relic" ∧
      tag_condition (some RelicType.Lith) item_lith = true :=
  relic_filter_sound [item_lith] (some RelicType.Lith) item_lith (by
    rw [show filter_items_by_relic_type [item_lith] (some RelicType.Lith) = [item_lith] from rfl]
    exact List.Mem.head _)

/-- C1 counterexample: with no tag, the filter keeps an item whose
`category` field is absent (the code tests the `type` field instead), so
not every output item has category "Relic". -/
theorem relic_filter_category_counterexample :
    item_relic_nocat ∈ filter_items_by_relic_type [item_relic_nocat] none ∧
      item_relic_nocat.category ≠ some "Relic" := by
  constructor
  · rw [show filter_items_by_relic_type [item_relic_nocat] none = [item_relic_nocat] from rfl]
    exact List.Mem.head _
  · simp [item_relic_nocat]

/-- C2 (amended): in the detail rendering mode, for every item, each
optional field that is absent is omitted entirely: no rendered line
carries the absent field's label (in particular no "not present"
sentinel line is printed for it), whatever the other fields hold. -/
theorem default_render_omits_absent_fields (item : Item) (tw : Nat) (ls : List String)
    (hr : render_item_default item tw = some ls) (line : String) (hl : line ∈ ls) :
    (item.description = none → starts_with line "│ Description:" = false) ∧
    (item.category = none → starts_with line "│ Category:" = false) ∧
    (item.productCategory = none → starts_with line "│ Product Category:" = false) ∧
    (item.introduced = none → starts_with line "│ Introduced Date:" = false) ∧
    (item.estimatedVaultDate = none →
      starts_with line "│ Estimated Vault Date:" = false) := by
  have hsh := render_line_shapes item tw ls line hr hl
  unfold line_shape at hsh
  refine ⟨?_, ?_, ?_, ?_, ?_⟩ <;> intro habs <;>
    rcases hsh with ⟨t, rfl⟩ | ⟨t, rfl⟩ | ⟨t, rfl⟩ | ⟨t, rfl⟩ |
      ⟨hne, ⟨t, rfl⟩ | ⟨t, rfl⟩⟩ | ⟨t, rfl⟩ | ⟨t, rfl⟩ |
      ⟨hne, t, rfl⟩ | ⟨hne, t, rfl⟩ | ⟨hne, t, rfl⟩ | ⟨hne, t, rfl⟩ | ⟨t, rfl⟩ <;>
    first
      | exact absurd habs hne
      | exact starts_with_append_none _ _ _ (by decide)

/-- Instance of the omission theorem at a mixed item (description and
product category present, category and introduced date absent): neither
the rendered description line nor the product-category line carries the
label of an absent field. -/
theorem default_render_omits_absent_fields_witness :
    starts_with "│ Description:" "│ Category:" = false ∧
    starts_with "│ Product Category: Gear" "│ Introduced Date:" = false := by
  constructor
  · exact (default_render_omits_absent_fields item_mixed 30
      ["┌────────────────────────────┐", "│ Name: Forma", "│ UniqueName: /Lotus/Forma",
       "│ Description:", "│   Reusable part", "│ Type: Item", "│ Tradable: false",
       "│ Product Category: Gear", "│ Estimated Vault Date: 2020-01-01",
       "└────────────────────────────┘"] rfl "│ Description:" (by decide)).2.1 rfl
  · exact (default_render_omits_absent_fields item_mixed 30
      ["┌────────────────────────────┐", "│ Name: Forma", "│ UniqueName: /Lotus/Forma",
       "│ Description:", "│   Reusable part", "│ Type: Item", "│ Tradable: false",
       "│ Product Category: Gear", "│ Estimated Vault Date: 2020-01-01",
       "└────────────────────────────┘"] rfl "│ Product Category: Gear" (by decide)).2.2.2.1 rfl

/-- C2 counterexample: an item with every optional field absent renders as
exactly six lines, none of which is a "not present" sentinel for the
absent description, category, product category, introduced date or vault
date. -/
theorem default_render_no_sentinel_counterexample :
    item_bare.description = none ∧ item_bare.category = none ∧
      item_bare.productCategory = none ∧ item_bare.introduced = none ∧
      item_bare.estimatedVaultDate = none ∧
      log_items [item_bare] OutputFormat.Default false (some (10, 24)) = some
        ["┌────────┐", "│ Name: X", "│ UniqueName: U", "│ Type: T",
         "│ Tradable: true", "└────────┘"] :=
  ⟨rfl, rfl, rfl, rfl, rfl, rfl⟩

/-- C3: the wrapping routine, evaluated at border width 20 with label
"Description:", breaks after every single word of "The quick brown fox
jumps" (even though e.g. "Description: The" occupies only 16 of the 20
columns), and for a single 34-column word it emits a rendered line of 38
display columns, exceeding the border width. -/
theorem wrap_text_buggy_eval :
    wrap_text "The quick brown fox jumps" "Description:" 20 2 =
      ["Description:", "  The", "  quick", "  brown", "  fox", "  jumps"] ∧
    ((wrap_text "Supercalifragilisticexpialidocious" "Description:" 20 2).map
        (fun line => "│ " ++ line)).any (fun line => decide (20 < uwidth line)) = true :=
  ⟨rfl, rfl⟩

/-- C4: when the loader reports malformed input, `main` propagates the
error: the run produces no output lines and exits with a non-zero
status. -/
theorem malformed_input_aborts (args : List String) (e : String)
    (dims : Option (Nat × Nat)) :
    main_run args (Except.error e) dims = some (Except.error e) ∧
    output_lines (main_run args (Except.error e) dims) = [] ∧
    exit_code (main_run args (Except.error e) dims) ≠ 0 :=
  ⟨rfl, rfl, Nat.one_ne_zero⟩

/-- C5: in search mode with the relic flag present, the printed lines are
exactly the first-occurrence deduplication of the items' relic short
names, in first-seen order; in particular the Intact and Radiant Meso A1
relics yield the single line "Meso A1". -/
theorem search_mode_dedups_short_names :
    (∀ (items : List Item) (dims : Option (Nat × Nat)),
      log_items items OutputFormat.Search true dims =
        some (dedup_first (items.map Item.get_relic_short_name))) ∧
    log_items [item_meso_intact, item_meso_radiant] OutputFormat.Search true none =
      some ["Meso A1"] := by
  constructor
  · intro items dims
    rw [log_items, log_items_go_search_relic]
    congr 1
    congr 1
    simp [set_contains]
  · rfl

/-- C6: with no relic flag and no search term in the argument vector, the
filter pipeline is the identity on the item sequence. -/
theorem no_flags_filters_identity (args : List String) (items : List Item)
    (h1 : has_relic_arg args = false) (h2 : search_term_arg args = none) :
    run_filters args items = items := by
  simp [run_filters, h1, h2]

/-- Instance of the identity theorem at a concrete argument vector. -/
theorem no_flags_filters_identity_witness :
    run_filters ["--log-items"] [item_bare] = [item_bare] :=
  no_flags_filters_identity ["--log-items"] [item_bare] rfl rfl

/-- C7: the search filter's output is a sublist of the input (so every
output item occurs in the input, in input order), and each output item's
name or uniqueName, lower-cased, starts with the lower-cased term. -/
theorem search_filter_sound (items : List Item) (term : String) (item : Item)
    (h : item ∈ filter_items_by_search_term items (some term)) :
    (filter_items_by_search_term items (some term)).Sublist items ∧
    (starts_with (to_lowercase item.name) (to_lowercase term) = true ∨
     starts_with (to_lowercase item.uniqueName) (to_lowercase term) = true) ∧
    item ∈ items := by
  simp only [filter_items_by_search_term] at h ⊢
  have hm := List.mem_filter.mp h
  have hpred := hm.2
  rw [Bool.or_eq_true] at hpred
  exact ⟨List.filter_sublist _, hpred, hm.1⟩

/-- Instance of the search-filter soundness theorem at a concrete item. -/
theorem search_filter_sound_witness :
    (filter_items_by_search_term [item_lith] (some "Lith")).Sublist [item_lith] ∧
    (starts_with (to_lowercase item_lith.name) (to_lowercase "Lith") = true ∨
     starts_with (to_lowercase item_lith.uniqueName) (to_lowercase "Lith") = true) ∧
    item_lith ∈ [item_lith] :=
  search_filter_sound [item_lith] "Lith" item_lith (by
    rw [show filter_items_by_search_term [item_lith] (some "Lith") = [item_lith] from rfl]
    exact List.Mem.head _)

/-- C8 (amended): a relic-flag value outside the four literals parses to
`none` and raises no error; the filter then keeps exactly the items whose
`type` field equals "Relic" (not the `category` field), identical to the
result when no tag parses at all. -/
theorem invalid_relic_tag_degrades (s : String) (items : List Item)
    (h : ¬ to_lowercase s ∈ (["lith", "meso", "neo", "axi"] : List String)) :
    RelicType.from_str s = none ∧
    filter_items_by_relic_type items (RelicType.from_str s) =
      items.filter (fun item => item.type_ == "Relic") ∧
    filter_items_by_relic_type items none =
      items.filter (fun item => item.type_ == "Relic") := by
  simp only [List.mem_cons, List.not_mem_nil, or_false, not_or] at h
  obtain ⟨h1, h2, h3, h4⟩ := h
  have hnone : RelicType.from_str s = none := by
    simp [RelicType.from_str, h1, h2, h3, h4]
  refine ⟨hnone, ?_, ?_⟩
  · rw [hnone]
    simp [filter_items_by_relic_type]
  · simp [filter_items_by_relic_type]

/-- Instance of the invalid-tag theorem at the value "bogus". -/
theorem invalid_relic_tag_degrades_witness :
    RelicType.from_str "bogus" = none ∧
    filter_items_by_relic_type [item_relic_nocat] (RelicType.from_str "bogus") =
      [item_relic_nocat].filter (fun item => item.type_ == "Relic") ∧
    filter_items_by_relic_type [item_relic_nocat] none =
      [item_relic_nocat].filter (fun item => item.type_ == "Relic") :=
  invalid_relic_tag_degrades "bogus" [item_relic_nocat] (by decide)

/-- C8 counterexample: with the unparseable tag "bogus" the filter keeps an
item whose `category` field is absent, so it does not keep exactly the
items of category "Relic" — it keeps the items whose `type` field is
"Relic". -/
theorem invalid_relic_tag_category_counterexample :
    RelicType.from_str "bogus" = none ∧
    item_relic_nocat ∈
      filter_items_by_relic_type [item_relic_nocat] (RelicType.from_str "bogus") ∧
    item_relic_nocat.category ≠ some "Relic" := by
  refine ⟨rfl, ?_, ?_⟩
  · rw [show filter_items_by_relic_type [item_relic_nocat] (RelicType.from_str "bogus") =
      [item_relic_nocat] from rfl]
    exact List.Mem.head _
  · simp [item_relic_nocat]

/-- C9: when the argument vector lacks "--log-items", a successfully
parsed run prints nothing and exits with status 0, whatever the other
flags. -/
theorem no_log_flag_silent (args : List String) (items : List Item)
    (dims : Option (Nat × Nat)) (h : args.contains "--log-items" = false) :
    main_run args (Except.ok items) dims = some (Except.ok []) ∧
    output_lines (main_run args (Except.ok items) dims) = [] ∧
    exit_code (main_run args (Except.ok items) dims) = 0 := by
  have hrun : main_run args (Except.ok items) dims = some (Except.ok []) := by
    simp only [main_run]
    rw [h]
    simp
  rw [hrun]
  exact ⟨rfl, rfl, rfl⟩

/-- Instance of the silent-run theorem with every filter flag present but
no "--log-items". -/
theorem no_log_flag_silent_witness :
    main_run ["--relic", "lith", "--search", "abc", "--fmt:search"]
        (Except.ok [item_bare]) none = some (Except.ok []) ∧
    output_lines (main_run ["--relic", "lith", "--search", "abc", "--fmt:search"]
        (Except.ok [item_bare]) none) = [] ∧
    exit_code (main_run ["--relic", "lith", "--search", "abc", "--fmt:search"]
        (Except.ok [item_bare]) none) = 0 :=
  no_log_flag_silent ["--relic", "lith", "--search", "abc", "--fmt:search"]
    [item_bare] none rfl

/-- C10: the detail-mode border width is the unchecked `usize`
subtraction `term_width - 2`: it is defined exactly when the detected
width is at least 2, underflows (panics) at detected widths 0 and 1, and
the fallback when detection fails is width 80, giving a border of 78
columns. -/
theorem border_width_underflow :
    (∀ (w h' : Nat), (border_width_of (some (w, h'))).isSome = decide (2 ≤ w)) ∧
    border_width_of (some (0, 24)) = none ∧
    border_width_of (some (1, 24)) = none ∧
    border_width_of none = some 78 ∧
    (∀ item : Item, log_items [item] OutputFormat.Default false (some (1, 24)) = none) := by
  refine ⟨?_, rfl, rfl, rfl, fun item => rfl⟩
  intro w h'
  by_cases hw : 2 ≤ w
  · simp [border_width_of, term_width_of, rust_sub, hw]
  · simp [border_width_of, term_width_of, rust_sub, hw]
